import Mathlib

/-!
Verification of the ray-tracer geometry/rendering engine against its
natural-language specification.

Each section shallowly embeds the Rust source of one component
(floating-point values are modelled by exact rationals; where the source
relies on IEEE-754 infinities the embedding uses an explicit extended
type; fallible operations, including operations that can panic via
`unwrap`, return `Option`).  Theorems named `c1_...` to `c10_...` settle
the corresponding claims.
-/

set_option maxHeartbeats 1000000

namespace RayTracerCheck

/-- Epsilon constant from the approx-eq crate: `EPSILON: f64 = 0.00001`. -/
def EPSILON : ℚ := 1 / 100000

/-- Embedding of `ApproxEq::approx_eq` for f64: `(self - other).abs() < EPSILON`. -/
def approxEq (a b : ℚ) : Prop := |a - b| < EPSILON

instance (a b : ℚ) : Decidable (approxEq a b) := by
  unfold approxEq; infer_instance

/-! ## Section C3: `Intersections::hit` (src/ray-tracer/src/intersections.rs, lines 154-159)

`hit` filters the stored intersections to those with `t > 0.0` and takes
the minimum by `t` (`min_by` with `f64::total_cmp`).  The objects carried
by intersections are irrelevant to `hit`, so they are modelled by an
opaque identifier. -/

namespace HitNS

/-- Intersection record for the `hit` embedding: the `t` parameter and an
opaque object identifier standing for the `&Object` reference. -/
structure Intx where
  t : ℚ
  object : ℕ
deriving DecidableEq, Repr

/-- One step of Rust's `Iterator::min_by` fold: keeps the accumulator on
ties (`min_by` returns the first of equally-minimum elements). -/
def minStep (acc : Option Intx) (x : Intx) : Option Intx :=
  match acc with
  | none => some x
  | some m => if x.t < m.t then some x else some m

/-- Embedding of `.min_by(|i, j| i.t.total_cmp(&j.t))` over the list of
intersections (for rationals `total_cmp` coincides with the order). -/
def minByT (xs : List Intx) : Option Intx := xs.foldl minStep none

/-- Embedding of `Intersections::hit`:
`self.intersections.iter().filter(|i| i.t > 0.0).min_by(...)`. -/
def hit (xs : List Intx) : Option Intx :=
  minByT (xs.filter (fun i => decide (0 < i.t)))

lemma minByT_go (xs : List Intx) (m : Intx) :
    ∃ r, xs.foldl minStep (some m) = some r ∧ (r = m ∨ r ∈ xs) ∧ r.t ≤ m.t ∧
      ∀ x ∈ xs, r.t ≤ x.t := by
  induction xs generalizing m with
  | nil => exact ⟨m, rfl, Or.inl rfl, le_refl _, by simp⟩
  | cons y ys ih =>
    by_cases h : y.t < m.t
    · obtain ⟨r, hr, hmem, hle, hall⟩ := ih y
      refine ⟨r, ?_, ?_, ?_, ?_⟩
      · simpa [minStep, h] using hr
      · rcases hmem with rfl | hm
        · exact Or.inr (List.mem_cons_self _ _)
        · exact Or.inr (List.mem_cons_of_mem _ hm)
      · exact le_trans hle (le_of_lt h)
      · intro x hx
        rcases List.mem_cons.mp hx with rfl | hx
        · exact hle
        · exact hall x hx
    · obtain ⟨r, hr, hmem, hle, hall⟩ := ih m
      refine ⟨r, ?_, ?_, hle, ?_⟩
      · simpa [minStep, h] using hr
      · rcases hmem with rfl | hm
        · exact Or.inl rfl
        · exact Or.inr (List.mem_cons_of_mem _ hm)
      · intro x hx
        rcases List.mem_cons.mp hx with rfl | hx
        · exact le_trans hle (not_lt.mp h)
        · exact hall x hx

lemma minByT_spec (xs : List Intx) :
    (xs = [] ∧ minByT xs = none) ∨
      ∃ r, minByT xs = some r ∧ r ∈ xs ∧ ∀ x ∈ xs, r.t ≤ x.t := by
  cases xs with
  | nil => exact Or.inl ⟨rfl, rfl⟩
  | cons y ys =>
    obtain ⟨r, hr, hmem, hle, hall⟩ := minByT_go ys y
    refine Or.inr ⟨r, ?_, ?_, ?_⟩
    · simpa [minByT, minStep] using hr
    · rcases hmem with rfl | hm
      · exact List.mem_cons_self _ _
      · exact List.mem_cons_of_mem _ hm
    · intro x hx
      rcases List.mem_cons.mp hx with rfl | hx
      · exact hle
      · exact hall x hx

/-- C3: `hit()` returns an intersection whose `t` is the smallest strictly
positive `t` in the collection (ties broken arbitrarily), returns `none`
when no intersection has `t > 0`, and never returns an intersection with
`t ≤ 0`. -/
theorem c3_hit_smallest_positive (xs : List Intx) :
    (∀ i, hit xs = some i →
        i ∈ xs ∧ 0 < i.t ∧ ∀ j ∈ xs, 0 < j.t → i.t ≤ j.t) ∧
      (hit xs = none ↔ ∀ j ∈ xs, ¬ 0 < j.t) := by
  constructor
  · intro i hi
    rcases minByT_spec (xs.filter (fun i => decide (0 < i.t))) with ⟨_, hnone⟩ | ⟨r, hr, hrm, hrle⟩
    · rw [hit] at hi; rw [hnone] at hi; exact absurd hi (by simp)
    · rw [hit, hr] at hi
      obtain rfl : r = i := by injection hi
      have hmem := List.mem_filter.mp hrm
      refine ⟨hmem.1, by simpa using hmem.2, ?_⟩
      intro j hj hjpos
      exact hrle j (List.mem_filter.mpr ⟨hj, by simpa using hjpos⟩)
  · constructor
    · intro hnone j hj hjpos
      rcases minByT_spec (xs.filter (fun i => decide (0 < i.t))) with ⟨hemp, _⟩ | ⟨r, hr, _, _⟩
      · have : j ∈ xs.filter (fun i => decide (0 < i.t)) :=
          List.mem_filter.mpr ⟨hj, by simpa using hjpos⟩
        rw [hemp] at this; simp at this
      · rw [hit, hr] at hnone; exact absurd hnone (by simp)
    · intro hall
      have hemp : xs.filter (fun i => decide (0 < i.t)) = [] := by
        rw [List.filter_eq_nil_iff]
        intro a ha
        simpa using hall a ha
      rw [hit, hemp]; rfl

/-- C3 witness: on the concrete collection from the source's
`hit_is_always_the_lowest_non_negative_intersection` test
(t values 5, 7, -3, 2) the hit is the intersection with t = 2. -/
theorem c3_hit_smallest_positive_witness :
    hit [⟨5, 0⟩, ⟨7, 0⟩, ⟨-3, 0⟩, ⟨2, 0⟩] = some ⟨2, 0⟩ ∧
      (⟨2, 0⟩ : Intx) ∈ [⟨5, 0⟩, ⟨7, 0⟩, ⟨-3, 0⟩, (⟨2, 0⟩ : Intx)] ∧ (0 : ℚ) < 2 ∧
      ∀ j ∈ [⟨5, 0⟩, ⟨7, 0⟩, ⟨-3, 0⟩, (⟨2, 0⟩ : Intx)], 0 < j.t → (2 : ℚ) ≤ j.t := by
  have h : hit [⟨5, 0⟩, ⟨7, 0⟩, ⟨-3, 0⟩, ⟨2, 0⟩] = some ⟨2, 0⟩ := by
    norm_num [hit, minByT, minStep, List.filter, List.foldl]
  exact ⟨h, (c3_hit_smallest_positive [⟨5, 0⟩, ⟨7, 0⟩, ⟨-3, 0⟩, ⟨2, 0⟩]).1 ⟨2, 0⟩ h⟩

end HitNS

/-! ## Section C1: CSG intersection filtering (src/ray-tracer/src/shapes/csg.rs)

`CSG::intersection_allowed` (lines 49-60) and `CSG::filter_intersections`
(lines 74-92).  The objects referenced by intersections are modelled as
trees of opaque leaves; `Object::includes`, which is called by
`filter_intersections` but is not defined anywhere under src/, is
modelled from the spec. -/

namespace CSGNS

/-- Object model for the CSG sweep: a leaf primitive with an opaque
identifier, or a group of children.  Only subtree membership and equality
of objects matter to `filter_intersections`. -/
inductive CObj where
  | prim (id : ℕ)
  | grp (children : List CObj)

mutual

/-- Structural equality of objects (Rust's derived `PartialEq`). -/
def beqC : CObj → CObj → Bool
  | .prim a, .prim b => a == b
  | .grp cs, .grp ds => beqCL cs ds
  | _, _ => false

/-- Structural equality on lists of objects. -/
def beqCL : List CObj → List CObj → Bool
  | [], [] => true
  | a :: as_, b :: bs => beqC a b && beqCL as_ bs
  | _, _ => false

end

mutual

/-- Modelled from the spec: `Object::includes` is called by
`CSG::filter_intersections` (`self.left.includes(i.object)`) but its
definition is missing from src/; per the spec, `left_hit` means "the hit
object belongs to the left subtree", so `includes` is subtree membership
(the receiver itself, or recursively a child of a group). -/
def includes (o x : CObj) : Bool :=
  beqC o x ||
    (match o with
     | .prim _ => false
     | .grp cs => includesL cs x)

/-- Subtree membership over a list of children. -/
def includesL (cs : List CObj) (x : CObj) : Bool :=
  match cs with
  | [] => false
  | c :: rest => includes c x || includesL rest x

end

/-- CSG node kinds, from `CSGKind`. -/
inductive CSGKind where
  | union
  | intersection
  | difference
deriving DecidableEq, Repr

/-- A CSG node: kind plus left and right child objects (from `CSG`). -/
structure CSGNode where
  kind : CSGKind
  left : CObj
  right : CObj

/-- Intersection record for the CSG sweep: `t` and the hit object. -/
structure Intx where
  t : ℚ
  object : CObj

/-- Embedding of `CSG::intersection_allowed`. -/
def intersectionAllowed (kind : CSGKind) (left_hit inside_left inside_right : Bool) : Bool :=
  match kind with
  | .union => (left_hit && !inside_right) || (!left_hit && !inside_left)
  | .intersection => (left_hit && inside_right) || (!left_hit && inside_left)
  | .difference => (left_hit && !inside_right) || (!left_hit && inside_left)

/-- Whether this intersection's object belongs to the left subtree
(`self.left.includes(i.object)`). -/
def leftHit (c : CSGNode) (i : Intx) : Bool := includes c.left i.object

/-- One step of the `filter_intersections` fold: state is
`(inside_left, inside_right, kept intersections)`. -/
def filterStep (c : CSGNode) (s : Bool × Bool × List Intx) (i : Intx) :
    Bool × Bool × List Intx :=
  let lh := leftHit c i
  let acc := if intersectionAllowed c.kind lh s.1 s.2.1 then s.2.2 ++ [i] else s.2.2
  if lh then (!s.1, s.2.1, acc) else (s.1, !s.2.1, acc)

/-- Embedding of `CSG::filter_intersections`: fold over the (t-sorted)
intersection list starting from `(false, false, empty)`. -/
def filterIntersections (c : CSGNode) (xs : List Intx) : List Intx :=
  (xs.foldl (filterStep c) (false, false, [])).2.2

/-- Parity of the number of already-walked intersections satisfying `p`:
`inside_left`/`inside_right` flags after processing a prefix. -/
def oddCount (p : Intx → Bool) (pre : List Intx) : Bool :=
  pre.countP p % 2 == 1

/-- Specified keep-condition for the intersection after prefix `pre`, per
the spec's truth table with both flags starting false and toggling after
each evaluated intersection. -/
def specKeep (c : CSGNode) (pre : List Intx) (i : Intx) : Bool :=
  intersectionAllowed c.kind (leftHit c i)
    (oddCount (leftHit c) pre)
    (oddCount (fun j => !leftHit c j) pre)

/-- Specified filter: keep exactly the intersections whose `specKeep`
holds for the prefix walked before them, preserving order. -/
def specFilterAux (c : CSGNode) (pre : List Intx) : List Intx → List Intx
  | [] => []
  | i :: rest =>
    (if specKeep c pre i then [i] else []) ++ specFilterAux c (pre ++ [i]) rest

/-- Specified filter (spec side of claim C1), starting from the empty prefix. -/
def specFilter (c : CSGNode) (xs : List Intx) : List Intx := specFilterAux c [] xs

lemma oddCount_append_one (p : Intx → Bool) (pre : List Intx) (i : Intx) :
    oddCount p (pre ++ [i]) = if p i then !oddCount p pre else oddCount p pre := by
  have key : ∀ n : ℕ, ((n + 1) % 2 == 1) = !(n % 2 == 1) := by
    intro n
    rcases Nat.even_or_odd n with he | ho
    · obtain ⟨k, hk⟩ := he
      have h1 : n % 2 = 0 := by omega
      have h2 : (n + 1) % 2 = 1 := by omega
      rw [h1, h2]; rfl
    · obtain ⟨k, hk⟩ := ho
      have h1 : n % 2 = 1 := by omega
      have h2 : (n + 1) % 2 = 0 := by omega
      rw [h1, h2]; rfl
  by_cases h : p i = true
  · simp [oddCount, List.countP_append, List.countP_cons, h, key]
  · have h' : p i = false := by simpa using h
    simp [oddCount, List.countP_append, List.countP_cons, h']

lemma filter_fold (c : CSGNode) (xs : List Intx) :
    ∀ (pre acc : List Intx),
      (xs.foldl (filterStep c)
          (oddCount (leftHit c) pre, oddCount (fun j => !leftHit c j) pre, acc)).2.2 =
        acc ++ specFilterAux c pre xs := by
  induction xs with
  | nil => intro pre acc; simp [specFilterAux]
  | cons i rest ih =>
    intro pre acc
    rw [List.foldl_cons]
    have hL := oddCount_append_one (leftHit c) pre i
    have hR := oddCount_append_one (fun j => !leftHit c j) pre i
    by_cases hlh : leftHit c i = true
    · have hR' : oddCount (fun j => !leftHit c j) (pre ++ [i]) =
          oddCount (fun j => !leftHit c j) pre := by rw [hR]; simp [hlh]
      have hL' : oddCount (leftHit c) (pre ++ [i]) = !oddCount (leftHit c) pre := by
        rw [hL]; simp [hlh]
      have hstep : filterStep c
          (oddCount (leftHit c) pre, oddCount (fun j => !leftHit c j) pre, acc) i =
          (oddCount (leftHit c) (pre ++ [i]), oddCount (fun j => !leftHit c j) (pre ++ [i]),
            acc ++ (if specKeep c pre i then [i] else [])) := by
        rw [hL', hR']
        by_cases hk : intersectionAllowed c.kind true (oddCount (leftHit c) pre)
            (oddCount (fun j => !leftHit c j) pre) = true
        · simp [filterStep, specKeep, hlh, hk]
        · simp [filterStep, specKeep, hlh, hk]
      rw [hstep, ih (pre ++ [i]) (acc ++ (if specKeep c pre i then [i] else []))]
      simp [specFilterAux]
    · have hlh' : leftHit c i = false := by simpa using hlh
      have hL' : oddCount (leftHit c) (pre ++ [i]) = oddCount (leftHit c) pre := by
        rw [hL]; simp [hlh']
      have hR' : oddCount (fun j => !leftHit c j) (pre ++ [i]) =
          !oddCount (fun j => !leftHit c j) pre := by rw [hR]; simp [hlh']
      have hstep : filterStep c
          (oddCount (leftHit c) pre, oddCount (fun j => !leftHit c j) pre, acc) i =
          (oddCount (leftHit c) (pre ++ [i]), oddCount (fun j => !leftHit c j) (pre ++ [i]),
            acc ++ (if specKeep c pre i then [i] else [])) := by
        rw [hL', hR']
        by_cases hk : intersectionAllowed c.kind false (oddCount (leftHit c) pre)
            (oddCount (fun j => !leftHit c j) pre) = true
        · simp [filterStep, specKeep, hlh', hk]
        · simp [filterStep, specKeep, hlh', hk]
      rw [hstep, ih (pre ++ [i]) (acc ++ (if specKeep c pre i then [i] else []))]
      simp [specFilterAux]

/-- The four-intersection Difference example: two leaf objects, t values
0, 1, 2, 3 alternating left/right ownership. -/
def diffExample : CSGNode := ⟨.difference, .prim 0, .prim 1⟩

/-- C1: `filter_intersections` keeps exactly the intersections allowed by
the spec's truth table, where the flags are the parities of the left/right
hits already walked (both start false and toggle after each intersection);
the truth table of `intersection_allowed` matches the spec's table; and on
the Difference example with t = 0,1,2,3 alternating left/right ownership
exactly the t = 0 and t = 1 intersections survive, in that order. -/
theorem c1_csg_filter (c : CSGNode) (xs : List Intx) :
    filterIntersections c xs = specFilter c xs ∧
      (∀ lh il ir : Bool,
        (intersectionAllowed .union lh il ir = true ↔ ((lh ∧ ¬ir) ∨ (¬lh ∧ ¬il))) ∧
        (intersectionAllowed .intersection lh il ir = true ↔ ((lh ∧ ir) ∨ (¬lh ∧ il))) ∧
        (intersectionAllowed .difference lh il ir = true ↔ ((lh ∧ ¬ir) ∨ (¬lh ∧ il)))) ∧
      filterIntersections diffExample
          [⟨0, .prim 0⟩, ⟨1, .prim 1⟩, ⟨2, .prim 0⟩, ⟨3, .prim 1⟩] =
        [⟨0, .prim 0⟩, ⟨1, .prim 1⟩] := by
  refine ⟨?_, ?_, ?_⟩
  · have h := filter_fold c xs [] []
    simpa [filterIntersections, specFilter, oddCount] using h
  · intro lh il ir
    refine ⟨?_, ?_, ?_⟩ <;> cases lh <;> cases il <;> cases ir <;>
      simp [intersectionAllowed]
  · norm_num [filterIntersections, filterStep, leftHit, includes, beqC,
      intersectionAllowed, diffExample, List.foldl]

end CSGNS

/-! ## Section C2: refractive-index pair in `prepare_computations`
(src/ray-tracer/src/intersections.rs, lines 67-125)

The n1/n2 portion of `Intersection::prepare_computations`: the loop over
the sorted intersection list maintaining the `containers` stack.  Objects
are modelled by their refractive index plus an opaque tag standing for
the remaining fields compared by `PartialEq`; `Intersection` equality in
the source compares `t` and the object (ignoring `u`, `v`). -/

namespace RefrNS

/-- Object model for the refractive walk: the material's refractive index
plus an opaque tag standing for the other fields Rust's structural
equality compares. -/
structure RObj where
  tag : ℕ
  refractiveIndex : ℚ
deriving DecidableEq, Repr

/-- Intersection record: `t` and the hit object (source equality compares
exactly these two fields). -/
structure Intx where
  t : ℚ
  object : RObj
deriving DecidableEq, Repr

/-- Refractive index at the top of the `containers` stack: 1.0 when the
stack is empty, else `containers.last().material().refractive_index`. -/
def refrTop (containers : List RObj) : ℚ :=
  match containers.getLast? with
  | none => 1
  | some o => o.refractiveIndex

/-- Stack update for one intersection's object: remove it if present
(`retain`), else push it. -/
def updateContainers (containers : List RObj) (o : RObj) : List RObj :=
  if o ∈ containers then containers.filter (fun x => decide (x ≠ o))
  else containers ++ [o]

/-- The `for x in xs.iter()` loop of `prepare_computations` restricted to
its n1/n2 state: `n1`/`n2` start at 0.0; at the first intersection equal
to the hit, `n1` is read from the stack top before the update and `n2`
after it, and the loop breaks. -/
def n1n2Walk (self : Intx) : List Intx → List RObj → ℚ × ℚ
  | [], _ => (0, 0)
  | x :: rest, containers =>
    if x = self then
      (refrTop containers, refrTop (updateContainers containers x.object))
    else
      n1n2Walk self rest (updateContainers containers x.object)

/-- The (n1, n2) pair produced by `prepare_computations` for hit `self`
within the sorted list `xs`, starting from an empty stack. -/
def n1n2 (self : Intx) (xs : List Intx) : ℚ × ℚ := n1n2Walk self xs []

lemma n1n2Walk_spec (self : Intx) (xs : List Intx) :
    ∀ containers : List RObj, self ∈ xs →
      n1n2Walk self xs containers =
        (refrTop ((xs.takeWhile (fun x => decide (x ≠ self))).foldl (fun c x => updateContainers c x.object) containers),
         refrTop (updateContainers
           ((xs.takeWhile (fun x => decide (x ≠ self))).foldl (fun c x => updateContainers c x.object) containers)
           self.object)) := by
  induction xs with
  | nil => intro _ h; simp at h
  | cons x rest ih =>
    intro containers hmem
    by_cases hx : x = self
    · subst hx
      simp [n1n2Walk, List.takeWhile]
    · have hne : decide (x ≠ self) = true := by simpa using hx
      have hmem' : self ∈ rest := by
        rcases List.mem_cons.mp hmem with rfl | h
        · exact absurd rfl hx
        · exact h
      rw [n1n2Walk]
      rw [if_neg hx]
      rw [ih (updateContainers containers x.object) hmem']
      simp [List.takeWhile, hne]

/-- C2: for every sorted intersection list containing the hit being
prepared, the (n1, n2) pair is computed by walking the list up to the
first occurrence of the hit while folding the currently-entered-objects
stack (push if absent, remove if present): n1 is the refractive index at
the top of the stack before the hit's own update (1.0 if empty), n2 the
one after it, and the walk stops there. -/
theorem c2_refractive_walk (self : Intx) (xs : List Intx) (hmem : self ∈ xs) :
    n1n2 self xs =
      (refrTop ((xs.takeWhile (fun x => decide (x ≠ self))).foldl (fun c x => updateContainers c x.object) []),
       refrTop (updateContainers
         ((xs.takeWhile (fun x => decide (x ≠ self))).foldl (fun c x => updateContainers c x.object) [])
         self.object)) :=
  n1n2Walk_spec self xs [] hmem

/-- Glass sphere A of the source's
`finding_n1_and_n2_at_various_intersections` test (refractive index 1.5). -/
def objA : RObj := ⟨0, 3/2⟩

/-- Glass sphere B of the same test (refractive index 2.0). -/
def objB : RObj := ⟨1, 2⟩

/-- Glass sphere C of the same test (refractive index 2.5). -/
def objC : RObj := ⟨2, 5/2⟩

/-- The sorted intersection list of that test. -/
def testXs : List Intx :=
  [⟨2, objA⟩, ⟨11/4, objB⟩, ⟨13/4, objC⟩, ⟨19/4, objB⟩, ⟨21/4, objC⟩, ⟨6, objA⟩]

/-- C2 witness: for the second intersection of the test list the walk
yields (n1, n2) = (1.5, 2.0), matching the source test expectation. -/
theorem c2_refractive_walk_witness :
    (⟨11/4, objB⟩ : Intx) ∈ testXs ∧
      n1n2 ⟨11/4, objB⟩ testXs = (3/2, 2) := by
  have hmem : (⟨11/4, objB⟩ : Intx) ∈ testXs := by
    simp [testXs]
  refine ⟨hmem, ?_⟩
  have h := c2_refractive_walk ⟨11/4, objB⟩ testXs hmem
  rw [h]
  norm_num [testXs, objA, objB, objC, List.takeWhile_cons, updateContainers, refrTop,
    List.getLast?, Intx.mk.injEq, RObj.mk.injEq]

end RefrNS

/-! ## Section C6: cone and cylinder bounding boxes
(src/ray-tracer/src/shapes/cone.rs lines 142-147,
src/ray-tracer/src/shapes/cylinder.rs lines 126-131) -/

namespace BoundsC6NS

/-- A point with exact rational coordinates. -/
structure QPoint where
  x : ℚ
  y : ℚ
  z : ℚ
deriving DecidableEq, Repr

/-- An axis-aligned box given by its two corner points (`Bounds`). -/
structure QBounds where
  bmin : QPoint
  bmax : QPoint
deriving DecidableEq, Repr

/-- Cap variants shared by cones and cylinders. -/
inductive CapT where
  | uncapped
  | topCap
  | bottomCap
  | both
deriving DecidableEq, Repr

/-- A cone truncated to `[minimum, maximum]` (`Cone`; the caps do not
enter the bounds computation). -/
structure Cone where
  minimum : ℚ
  maximum : ℚ
  cap : CapT
deriving DecidableEq, Repr

/-- A cylinder truncated to `[minimum, maximum]` (`Cylinder`). -/
structure Cylinder where
  minimum : ℚ
  maximum : ℚ
  cap : CapT
deriving DecidableEq, Repr

/-- Embedding of `Cone::bounds`:
`Bounds::new(Point::new(min, min, min), Point::new(max, max, max))`. -/
def Cone.bounds (c : Cone) : QBounds :=
  ⟨⟨c.minimum, c.minimum, c.minimum⟩, ⟨c.maximum, c.maximum, c.maximum⟩⟩

/-- Embedding of `Cylinder::bounds`:
`Bounds::new(Point::new(-1, min, -1), Point::new(1, max, 1))`. -/
def Cylinder.bounds (c : Cylinder) : QBounds :=
  ⟨⟨-1, c.minimum, -1⟩, ⟨1, c.maximum, 1⟩⟩

/-- The bounding box the spec prescribes for a cone:
`[-r, min, -r]..[r, max, r]` with `r = max(:min:, :max:)` (absolute values). -/
def coneSpecBounds (c : Cone) : QBounds :=
  let r := max |c.minimum| |c.maximum|
  ⟨⟨-r, c.minimum, -r⟩, ⟨r, c.maximum, r⟩⟩

/-- Whether a point lies in a box (inclusive, as `Bounds::contains_point`). -/
def containsPoint (b : QBounds) (p : QPoint) : Prop :=
  b.bmin.x ≤ p.x ∧ b.bmin.y ≤ p.y ∧ b.bmin.z ≤ p.z ∧
    p.x ≤ b.bmax.x ∧ p.y ≤ b.bmax.y ∧ p.z ≤ b.bmax.z

/-- C6: the cylinder half of the claim holds (`bounds()` returns
`[-1, min, -1]..[1, max, 1]`), but the cone half fails on the code: for
the cone bounded by `[-2, 1]`, `Cone::bounds` returns the box
`[-2,-2,-2]..[1,1,1]` instead of the spec's `[-2,-2,-2]..[2,1,2]`, and the
code's box does not even contain the cone surface point `(2, -2, 0)`
(which satisfies `x² + z² = y²` within the `y` range) while the spec's
box does — the code box is not a bounding box of the cone. -/
theorem c6_cone_cylinder_bounds :
    (∀ cyl : Cylinder, cyl.bounds = ⟨⟨-1, cyl.minimum, -1⟩, ⟨1, cyl.maximum, 1⟩⟩) ∧
      Cone.bounds ⟨-2, 1, .uncapped⟩ = ⟨⟨-2, -2, -2⟩, ⟨1, 1, 1⟩⟩ ∧
      coneSpecBounds ⟨-2, 1, .uncapped⟩ = ⟨⟨-2, -2, -2⟩, ⟨2, 1, 2⟩⟩ ∧
      Cone.bounds ⟨-2, 1, .uncapped⟩ ≠ coneSpecBounds ⟨-2, 1, .uncapped⟩ ∧
      ((2 : ℚ)^2 + (0 : ℚ)^2 = (-2 : ℚ)^2 ∧ (-2 : ℚ) ≤ -2 ∧ (-2 : ℚ) ≤ 1) ∧
      ¬ containsPoint (Cone.bounds ⟨-2, 1, .uncapped⟩) ⟨2, -2, 0⟩ ∧
      containsPoint (coneSpecBounds ⟨-2, 1, .uncapped⟩) ⟨2, -2, 0⟩ := by
  refine ⟨fun cyl => rfl, rfl, ?_, ?_, ?_, ?_, ?_⟩
  · norm_num [coneSpecBounds]
  · intro h
    have := congrArg (fun b => b.bmax.x) h
    norm_num [Cone.bounds, coneSpecBounds] at this
  · norm_num
  · norm_num [containsPoint, Cone.bounds]
  · norm_num [containsPoint, coneSpecBounds]

end BoundsC6NS

/-! ## Section C7: `Computation::schlick`
(src/ray-tracer/src/intersections.rs, lines 35-48)

The Fresnel reflectance approximation.  `f64` is modelled by the reals so
that `f64::sqrt` becomes `Real.sqrt`; only the fields `schlick` reads
(`eye_v`, `normal_v`, `n1`, `n2`) are kept. -/

namespace SchlickNS

/-- A 3-vector with real components. -/
structure RV3 where
  x : ℝ
  y : ℝ
  z : ℝ

/-- Dot product of two vectors. -/
def dotR (a b : RV3) : ℝ := a.x * b.x + a.y * b.y + a.z * b.z

/-- The fields of `Computation` read by `schlick`. -/
structure CompR where
  eyeV : RV3
  normalV : RV3
  n1 : ℝ
  n2 : ℝ

open Real in
/-- Embedding of `Computation::schlick`. -/
noncomputable def schlick (c : CompR) : ℝ :=
  let cos := dotR c.eyeV c.normalV
  if c.n1 > c.n2 then
    let n := c.n1 / c.n2
    let sin2T := n ^ 2 * (1 - cos ^ 2)
    if sin2T > 1 then 1
    else
      let cosT := Real.sqrt (1 - sin2T)
      let r0 := ((c.n1 - c.n2) / (c.n1 + c.n2)) ^ 2
      r0 + (1 - r0) * (1 - cosT) ^ 5
  else
    let r0 := ((c.n1 - c.n2) / (c.n1 + c.n2)) ^ 2
    r0 + (1 - r0) * (1 - cos) ^ 5

/-- The perpendicular-view computation through a glass sphere
(refractive index 1.5): the exit hit of a ray travelling along +y from
the centre, with `eye_v = normal_v = (0,-1,0)`, `n1 = 1.5`, `n2 = 1`. -/
noncomputable def perpGlass : CompR := ⟨⟨0, -1, 0⟩, ⟨0, -1, 0⟩, 3/2, 1⟩

/-- C7: `schlick` returns exactly 1 under total internal reflection
(`n1 > n2` and `sin2_t > 1`); otherwise it returns
`r0 + (1 - r0)(1 - cos)^5` with `r0 = ((n1-n2)/(n1+n2))²`, where `cos` is
replaced by `cos_t = sqrt(1 - sin2_t)` when `n1 > n2`; and at a
perpendicular viewing angle through a glass sphere of refractive index
1.5 the reflectance is exactly 1/25 = 0.04. -/
theorem c7_schlick (c : CompR) :
    (c.n1 > c.n2 → (c.n1 / c.n2) ^ 2 * (1 - dotR c.eyeV c.normalV ^ 2) > 1 →
        schlick c = 1) ∧
      (c.n1 > c.n2 → ¬ (c.n1 / c.n2) ^ 2 * (1 - dotR c.eyeV c.normalV ^ 2) > 1 →
        schlick c = ((c.n1 - c.n2) / (c.n1 + c.n2)) ^ 2 +
          (1 - ((c.n1 - c.n2) / (c.n1 + c.n2)) ^ 2) *
            (1 - Real.sqrt (1 - (c.n1 / c.n2) ^ 2 * (1 - dotR c.eyeV c.normalV ^ 2))) ^ 5) ∧
      (¬ c.n1 > c.n2 →
        schlick c = ((c.n1 - c.n2) / (c.n1 + c.n2)) ^ 2 +
          (1 - ((c.n1 - c.n2) / (c.n1 + c.n2)) ^ 2) *
            (1 - dotR c.eyeV c.normalV) ^ 5) ∧
      schlick perpGlass = 1 / 25 := by
  refine ⟨?_, ?_, ?_, ?_⟩
  · intro h1 h2
    simp only [schlick, if_pos h1, if_pos h2]
  · intro h1 h2
    simp only [schlick, if_pos h1, if_neg h2]
  · intro h1
    simp only [schlick, if_neg h1]
  · have hd : dotR perpGlass.eyeV perpGlass.normalV = 1 := by
      norm_num [perpGlass, dotR]
    have h1 : perpGlass.n1 > perpGlass.n2 := by norm_num [perpGlass]
    have hsin : (perpGlass.n1 / perpGlass.n2) ^ 2 *
        (1 - dotR perpGlass.eyeV perpGlass.normalV ^ 2) = 0 := by
      rw [hd]; norm_num
    simp only [schlick, if_pos h1, hd]
    norm_num [perpGlass, Real.sqrt_one]

/-- C7 witness: a total-internal-reflection computation (`n1 = 1.5`,
`n2 = 1`, grazing view with `cos = 0`) has reflectance exactly 1. -/
theorem c7_schlick_witness :
    schlick ⟨⟨1, 0, 0⟩, ⟨0, 1, 0⟩, 3/2, 1⟩ = 1 := by
  have h := (c7_schlick ⟨⟨1, 0, 0⟩, ⟨0, 1, 0⟩, 3/2, 1⟩).1
  apply h
  · norm_num
  · norm_num [dotR]

end SchlickNS

/-! ## Section C4: depth-bounded recursive shading
(src/ray-tracer/src/world.rs, lines 63-172)

`World::color_at`, `shade_hit`, `is_shadowed`, `reflected_color` and
`refracted_color`.  This version of the source resolves objects through a
global registry by `object_id` and `unwrap`s the lookups; lookups are
modelled as an explicit registry list and every function returns `Option`
(`none` models a panic).  The shape intersection code, `lighting` and
`prepare_computations` for this registry version are not under src/ and
are abstracted as environment parameters; `f64::sqrt` is abstracted as
`fsqrt`.  The recursion is defined by well-founded recursion on the
explicit `remaining` counter, which is exactly the claim's termination
argument: every recursive call into `color_at` passes `remaining - 1`. -/

namespace WorldNS

/-- A 3-component tuple with rational coordinates (point or vector). -/
structure Vec3 where
  x : ℚ
  y : ℚ
  z : ℚ
deriving DecidableEq, Repr

/-- Componentwise subtraction. -/
def vsub (a b : Vec3) : Vec3 := ⟨a.x - b.x, a.y - b.y, a.z - b.z⟩

/-- Dot product. -/
def vdot (a b : Vec3) : ℚ := a.x * b.x + a.y * b.y + a.z * b.z

/-- Scalar multiple. -/
def vscale (v : Vec3) (s : ℚ) : Vec3 := ⟨v.x * s, v.y * s, v.z * s⟩

/-- An RGB color with rational components (colo-rs `Color`). -/
structure Color where
  r : ℚ
  g : ℚ
  b : ℚ
deriving DecidableEq, Repr

/-- Black, `Color::new(0.0, 0.0, 0.0)`. -/
def Color.black : Color := ⟨0, 0, 0⟩

/-- Componentwise color addition. -/
def cadd (a b : Color) : Color := ⟨a.r + b.r, a.g + b.g, a.b + b.b⟩

/-- Color scaled by a number (`Mul<f64> for Color`). -/
def cscale (c : Color) (s : ℚ) : Color := ⟨c.r * s, c.g * s, c.b * s⟩

/-- The `Sum` impl for colors: fold with addition from black. -/
def csum (l : List Color) : Color := l.foldl cadd ⟨0, 0, 0⟩

/-- The material coefficients read by the world-shading code. -/
structure Material where
  reflective : ℚ
  transparency : ℚ
  refractiveIndex : ℚ
  castShadows : Bool
  receiveShadows : Bool
deriving DecidableEq, Repr

/-- A registry object: its id plus its material (the registry version of
`Object`; its shape is consulted only through the abstract intersection
function of the environment). -/
structure Obj where
  id : ℕ
  material : Material
deriving DecidableEq, Repr

/-- Embedding of `Registry::get_object`:
`self.objects.iter().find(|obj| obj.id == id)`. -/
def getObject (registry : List Obj) (id : ℕ) : Option Obj :=
  registry.find? (fun o => o.id == id)

/-- A ray: origin and direction. -/
structure Ray where
  origin : Vec3
  direction : Vec3
deriving DecidableEq, Repr

/-- A registry-version intersection: `t` and the id of the hit object. -/
structure Intx where
  t : ℚ
  objectId : ℕ
deriving DecidableEq, Repr

/-- A point light. -/
structure PointLight where
  position : Vec3
  intensity : Color
deriving DecidableEq, Repr

/-- The world: lights plus registry ids of its objects. -/
structure World where
  lights : List PointLight
  objects : List ℕ
deriving DecidableEq, Repr

/-- The prepared hit state (registry version of `Computation`), with the
fields the shading code reads. -/
structure Computation where
  t : ℚ
  objectId : ℕ
  point : Vec3
  overPoint : Vec3
  underPoint : Vec3
  eyeV : Vec3
  normalV : Vec3
  inside : Bool
  reflectV : Vec3
  n1 : ℚ
  n2 : ℚ
deriving DecidableEq, Repr

/-- The collaborators of the shading code that live outside src/ in this
registry version: the registry contents, per-object shape intersection,
the material `lighting` contract, `prepare_computations` and `f64::sqrt`. -/
structure Env where
  registry : List Obj
  intersectsObj : Obj → Ray → List Intx
  lighting : Material → PointLight → Vec3 → Vec3 → Vec3 → Bool → Obj → Color
  prepComp : Ray → Intx → List Intx → Computation
  fsqrt : ℚ → ℚ

/-- Insertion into a t-sorted list. -/
def insertT (i : Intx) : List Intx → List Intx
  | [] => [i]
  | j :: rest => if i.t ≤ j.t then i :: j :: rest else j :: insertT i rest

/-- Sort by `t` (`sort_by` with `total_cmp`; rationals carry no NaN). -/
def sortByT (xs : List Intx) : List Intx := xs.foldr insertT []

/-- Embedding of `World::intersect_world`: gather every object's
intersections (registry lookups `unwrap`ed in the source) and sort by t. -/
def intersectWorld (env : Env) (w : World) (r : Ray) : Option (List Intx) :=
  (w.objects.mapM (getObject env.registry)).map fun objs =>
    sortByT (objs.foldl (fun acc o => acc ++ env.intersectsObj o r) [])

/-- The hit of a list of intersections (smallest strictly positive t), as
in `Intersections::hit`. -/
def hitW (xs : List Intx) : Option Intx :=
  (xs.filter (fun i => decide (0 < i.t))).foldl
    (fun acc x =>
      match acc with
      | none => some x
      | some m => if x.t < m.t then some x else some m) none

/-- Embedding of the registry-version `Computation::schlick` with the
abstract square root. -/
def schlickW (env : Env) (c : Computation) : ℚ :=
  let cos := vdot c.eyeV c.normalV
  if c.n1 > c.n2 then
    let n := c.n1 / c.n2
    let sin2T := n ^ 2 * (1 - cos ^ 2)
    if sin2T > 1 then 1
    else
      let cosT := env.fsqrt (1 - sin2T)
      let r0 := ((c.n1 - c.n2) / (c.n1 + c.n2)) ^ 2
      r0 + (1 - r0) * (1 - cosT) ^ 5
  else
    let r0 := ((c.n1 - c.n2) / (c.n1 + c.n2)) ^ 2
    r0 + (1 - r0) * (1 - cos) ^ 5

/-- Vector magnitude, `sqrt(x² + y² + z²)`, via the abstract square root. -/
def magnitudeW (env : Env) (v : Vec3) : ℚ := env.fsqrt (vdot v v)

/-- Vector normalization (componentwise division by the magnitude; the
rational model divides by zero to zero where IEEE-754 would give NaN). -/
def normalizeW (env : Env) (v : Vec3) : Vec3 :=
  ⟨v.x / magnitudeW env v, v.y / magnitudeW env v, v.z / magnitudeW env v⟩

/-- The per-light loop of `World::is_shadowed`: a shadow ray toward each
light; shadowed if some intersection of a `cast_shadows` object lies
strictly closer than the light. -/
def isShadowedGo (env : Env) (w : World) (p : Vec3) : List PointLight → Option Bool
  | [] => some false
  | light :: rest =>
    let v := vsub light.position p
    let distance := magnitudeW env v
    let direction := normalizeW env v
    (intersectWorld env w ⟨p, direction⟩).bind fun xs =>
      (xs.mapM (fun i => (getObject env.registry i.objectId).map
          fun o => (i, o.material.castShadows))).bind fun pairs =>
        let shadowing := (pairs.filter (fun q => q.2)).map (fun q => q.1)
        match hitW shadowing with
        | some h => if h.t < distance then some true else isShadowedGo env w p rest
        | none => isShadowedGo env w p rest

/-- Embedding of `World::is_shadowed`. -/
def isShadowed (env : Env) (w : World) (p : Vec3) : Option Bool :=
  isShadowedGo env w p w.lights

mutual

/-- Embedding of `World::color_at`: black when there is no hit, else
prepare the hit and shade it with the same `remaining` budget. -/
def colorAt (env : Env) (w : World) (r : Ray) (remaining : ℕ) : Option Color :=
  (intersectWorld env w r).bind fun xs =>
    match hitW xs with
    | some h => shadeHit env w (env.prepComp r h xs) remaining
    | none => some Color.black
termination_by (remaining, 3)

/-- Embedding of `World::shade_hit`: per light, surface lighting plus the
reflected and refracted contributions, Schlick-blended when the material
is both reflective and transparent; summed over the lights. -/
def shadeHit (env : Env) (w : World) (comps : Computation) (remaining : ℕ) :
    Option Color :=
  match getObject env.registry comps.objectId with
  | none => none
  | some obj =>
    (w.lights.mapM fun light =>
      (isShadowed env w comps.overPoint).bind fun shadowed =>
        let inShadow := obj.material.receiveShadows && shadowed
        let surface := env.lighting obj.material light comps.overPoint comps.eyeV
          comps.normalV inShadow obj
        (reflectedColor env w comps remaining).bind fun reflected =>
          (refractedColor env w comps remaining).bind fun refracted =>
            let refSum :=
              if obj.material.reflective > 0 ∧ obj.material.transparency > 0 then
                let reflectance := schlickW env comps
                cadd (cscale reflected reflectance) (cscale refracted (1 - reflectance))
              else cadd reflected refracted
            some (cadd surface refSum)).map csum
termination_by (remaining, 2)

/-- Embedding of `World::reflected_color`: black when the reflective
coefficient is approximately 0 or `remaining == 0`; otherwise trace the
reflection ray with `remaining - 1` and scale by the coefficient. -/
def reflectedColor (env : Env) (w : World) (comps : Computation) (remaining : ℕ) :
    Option Color :=
  match getObject env.registry comps.objectId with
  | none => none
  | some obj =>
    if h : approxEq obj.material.reflective 0 ∨ remaining = 0 then some Color.black
    else
      (colorAt env w ⟨comps.overPoint, comps.reflectV⟩ (remaining - 1)).map
        fun color => cscale color obj.material.reflective
termination_by (remaining, 1)

/-- Embedding of `World::refracted_color`: black when the transparency is
approximately 0 or `remaining == 0`; black under total internal
reflection; otherwise trace the Snell-refracted ray with `remaining - 1`
and scale by the transparency. -/
def refractedColor (env : Env) (w : World) (comps : Computation) (remaining : ℕ) :
    Option Color :=
  match getObject env.registry comps.objectId with
  | none => none
  | some obj =>
    if h : approxEq obj.material.transparency 0 ∨ remaining = 0 then some Color.black
    else
      let nRatio := comps.n1 / comps.n2
      let cosI := vdot comps.eyeV comps.normalV
      let sin2T := nRatio * nRatio * (1 - cosI * cosI)
      if sin2T > 1 then some Color.black
      else
        let cosT := env.fsqrt (1 - sin2T)
        let direction := vsub (vscale comps.normalV (nRatio * cosI - cosT))
          (vscale comps.eyeV nRatio)
        (colorAt env w ⟨comps.underPoint, direction⟩ (remaining - 1)).map
          fun color => cscale color obj.material.transparency
termination_by (remaining, 1)

end

/-- C4: `reflected_color` and `refracted_color` return exactly black when
`remaining == 0` or when the material's reflective (resp. transparency)
coefficient is approximately 0, regardless of the other inputs; and at
any nonzero budget with a non-negligible coefficient each makes its
recursive call into `color_at` with `remaining - 1` (the mutual recursion
is defined by well-founded recursion on `remaining`, so it terminates for
every initial budget). -/
theorem c4_recursion_depth (env : Env) (w : World) (comps : Computation) (obj : Obj)
    (hobj : getObject env.registry comps.objectId = some obj) :
    (reflectedColor env w comps 0 = some Color.black) ∧
      (refractedColor env w comps 0 = some Color.black) ∧
      (∀ n, approxEq obj.material.reflective 0 →
        reflectedColor env w comps n = some Color.black) ∧
      (∀ n, approxEq obj.material.transparency 0 →
        refractedColor env w comps n = some Color.black) ∧
      (∀ n, ¬ approxEq obj.material.reflective 0 →
        reflectedColor env w comps (n + 1) =
          (colorAt env w ⟨comps.overPoint, comps.reflectV⟩ n).map
            (fun color => cscale color obj.material.reflective)) ∧
      (∀ n, ¬ approxEq obj.material.transparency 0 →
        refractedColor env w comps (n + 1) =
          (let nRatio := comps.n1 / comps.n2
           let cosI := vdot comps.eyeV comps.normalV
           let sin2T := nRatio * nRatio * (1 - cosI * cosI)
           if sin2T > 1 then some Color.black
           else
             (colorAt env w ⟨comps.underPoint,
                 vsub (vscale comps.normalV (nRatio * cosI - env.fsqrt (1 - sin2T)))
                   (vscale comps.eyeV nRatio)⟩ n).map
               (fun color => cscale color obj.material.transparency))) := by
  refine ⟨?_, ?_, ?_, ?_, ?_, ?_⟩
  · rw [reflectedColor, hobj]
    simp
  · rw [refractedColor, hobj]
    simp
  · intro n hr
    rw [reflectedColor, hobj]
    simp [hr]
  · intro n hr
    rw [refractedColor, hobj]
    simp [hr]
  · intro n hr
    rw [reflectedColor, hobj]
    simp [hr]
  · intro n hr
    rw [refractedColor, hobj]
    simp [hr]

/-- A trivial environment for the C4 witness: one object with an
all-zero-coefficient material, no geometry, vacuous collaborators. -/
def env0 : Env where
  registry := [⟨0, ⟨0, 0, 1, true, true⟩⟩]
  intersectsObj := fun _ _ => []
  lighting := fun _ _ _ _ _ _ _ => Color.black
  prepComp := fun r i _ =>
    ⟨i.t, i.objectId, r.origin, r.origin, r.origin, r.direction, r.direction,
      false, r.direction, 1, 1⟩
  fsqrt := fun _ => 0

/-- The prepared hit used by the C4 witness. -/
def comps0 : Computation :=
  ⟨1, 0, ⟨0, 0, 0⟩, ⟨0, 0, 0⟩, ⟨0, 0, 0⟩, ⟨0, 0, -1⟩, ⟨0, 0, -1⟩, false,
    ⟨0, 0, -1⟩, 1, 1⟩

/-- C4 witness: in the trivial environment, `reflected_color` is black at
budget 0 and `refracted_color` is black at budget 5 because the
transparency coefficient is 0. -/
theorem c4_recursion_depth_witness :
    getObject env0.registry comps0.objectId = some ⟨0, ⟨0, 0, 1, true, true⟩⟩ ∧
      reflectedColor env0 ⟨[], [0]⟩ comps0 0 = some Color.black ∧
      refractedColor env0 ⟨[], [0]⟩ comps0 5 = some Color.black := by
  have hobj : getObject env0.registry comps0.objectId =
      some ⟨0, ⟨0, 0, 1, true, true⟩⟩ := by
    simp [getObject, env0, comps0]
  have h := c4_recursion_depth env0 ⟨[], [0]⟩ comps0 ⟨0, ⟨0, 0, 1, true, true⟩⟩ hobj
  exact ⟨hobj, h.1, h.2.2.2.1 5 (by norm_num [approxEq, EPSILON])⟩

end WorldNS

/-! ## Geometry region: exact f64 model for claims C5, C8, C9, C10

The transform / bounds / shape-tree code
(src/ray-tracer/src/matrix.rs, transformations.rs, bounds.rs,
shapes/mod.rs, shapes/group.rs, shapes/sphere.rs, shapes/cube.rs) relies
on IEEE-754 infinities (empty `Bounds`) and division by zero (slab
tests).  Finite doubles are modelled as unnormalized integer fractions
`Fq` (numerator, positive denominator) so that every operation is
kernel-computable, and the full value domain as `Fx`, adding `inf`,
`ninf` and `nan` with IEEE-754 semantics (zeroes unsigned, NaN positive). -/

namespace GeoNS

/-- A finite double modelled as an exact fraction.  All constructors and
operations below keep the denominator positive. -/
structure Fq where
  num : ℤ
  den : ℤ
deriving DecidableEq, Repr

/-- Embed an integer. -/
def Fq.ofInt (n : ℤ) : Fq := ⟨n, 1⟩

/-- Zero. -/
def Fq.zero : Fq := ⟨0, 1⟩

/-- One. -/
def Fq.one : Fq := ⟨1, 1⟩

/-- Addition. -/
def Fq.add (a b : Fq) : Fq := ⟨a.num * b.den + b.num * a.den, a.den * b.den⟩

/-- Negation. -/
def Fq.neg (a : Fq) : Fq := ⟨-a.num, a.den⟩

/-- Subtraction. -/
def Fq.sub (a b : Fq) : Fq := Fq.add a (Fq.neg b)

/-- Multiplication. -/
def Fq.mul (a b : Fq) : Fq := ⟨a.num * b.num, a.den * b.den⟩

/-- Division by a nonzero fraction (sign-normalized so the denominator
stays positive; callers test for a zero divisor first). -/
def Fq.divnz (a b : Fq) : Fq :=
  if b.num < 0 then ⟨-(a.num * b.den), a.den * (-b.num)⟩
  else ⟨a.num * b.den, a.den * b.num⟩

/-- Value equality (cross multiplication; this is f64 `==` on finite
values). -/
def Fq.beq (a b : Fq) : Bool := a.num * b.den == b.num * a.den

/-- Value order, non-strict. -/
def Fq.ble (a b : Fq) : Bool := decide (a.num * b.den ≤ b.num * a.den)

/-- Value order, strict. -/
def Fq.blt (a b : Fq) : Bool := decide (a.num * b.den < b.num * a.den)

/-- Three-way comparison of finite values. -/
def Fq.cmp (a b : Fq) : Ordering := compare (a.num * b.den) (b.num * a.den)

/-- A double: NaN, −∞, a finite value, or +∞. -/
inductive Fx where
  | nan : Fx
  | ninf : Fx
  | fin : Fq → Fx
  | inf : Fx
deriving DecidableEq, Repr

/-- Negation. -/
def Fx.neg : Fx → Fx
  | .nan => .nan
  | .ninf => .inf
  | .inf => .ninf
  | .fin q => .fin (Fq.neg q)

/-- IEEE-754 addition. -/
def Fx.add : Fx → Fx → Fx
  | .nan, _ => .nan
  | _, .nan => .nan
  | .inf, .ninf => .nan
  | .ninf, .inf => .nan
  | .inf, _ => .inf
  | _, .inf => .inf
  | .ninf, _ => .ninf
  | _, .ninf => .ninf
  | .fin a, .fin b => .fin (Fq.add a b)

/-- IEEE-754 subtraction. -/
def Fx.sub (a b : Fx) : Fx := Fx.add a (Fx.neg b)

/-- IEEE-754 multiplication (`0 · ±∞ = NaN`). -/
def Fx.mul : Fx → Fx → Fx
  | .nan, _ => .nan
  | _, .nan => .nan
  | .inf, .inf => .inf
  | .inf, .ninf => .ninf
  | .ninf, .inf => .ninf
  | .ninf, .ninf => .inf
  | .inf, .fin q => if q.num = 0 then .nan else if 0 < q.num then .inf else .ninf
  | .fin q, .inf => if q.num = 0 then .nan else if 0 < q.num then .inf else .ninf
  | .ninf, .fin q => if q.num = 0 then .nan else if 0 < q.num then .ninf else .inf
  | .fin q, .ninf => if q.num = 0 then .nan else if 0 < q.num then .ninf else .inf
  | .fin a, .fin b => .fin (Fq.mul a b)

/-- IEEE-754 division (zero divisors treated as +0; `0/0 = NaN`,
`q/0 = ±∞`, `±∞/±∞ = NaN`). -/
def Fx.div : Fx → Fx → Fx
  | .nan, _ => .nan
  | _, .nan => .nan
  | .inf, .inf => .nan
  | .inf, .ninf => .nan
  | .ninf, .inf => .nan
  | .ninf, .ninf => .nan
  | .inf, .fin q => if q.num = 0 then .inf else if 0 < q.num then .inf else .ninf
  | .ninf, .fin q => if q.num = 0 then .ninf else if 0 < q.num then .ninf else .inf
  | .fin _, .inf => .fin Fq.zero
  | .fin _, .ninf => .fin Fq.zero
  | .fin a, .fin b =>
    if b.num = 0 then
      if a.num = 0 then .nan else if 0 < a.num then .inf else .ninf
    else .fin (Fq.divnz a b)

/-- IEEE-754 non-strict comparison (false whenever NaN is involved). -/
def Fx.fle : Fx → Fx → Bool
  | .nan, _ => false
  | _, .nan => false
  | .ninf, _ => true
  | _, .ninf => false
  | _, .inf => true
  | .inf, _ => false
  | .fin a, .fin b => Fq.ble a b

/-- IEEE-754 strict comparison. -/
def Fx.flt : Fx → Fx → Bool
  | .nan, _ => false
  | _, .nan => false
  | .ninf, .ninf => false
  | .ninf, _ => true
  | _, .ninf => false
  | .inf, .inf => false
  | _, .inf => true
  | .inf, _ => false
  | .fin a, .fin b => Fq.blt a b

/-- IEEE-754 equality (false whenever NaN is involved). -/
def Fx.feq : Fx → Fx → Bool
  | .nan, _ => false
  | _, .nan => false
  | .ninf, .ninf => true
  | .inf, .inf => true
  | .fin a, .fin b => Fq.beq a b
  | _, _ => false

/-- `f64::min`: ignores a NaN argument. -/
def Fx.fmin (a b : Fx) : Fx :=
  match a, b with
  | .nan, _ => b
  | _, .nan => a
  | _, _ => if Fx.fle a b then a else b

/-- `f64::max`: ignores a NaN argument. -/
def Fx.fmax (a b : Fx) : Fx :=
  match a, b with
  | .nan, _ => b
  | _, .nan => a
  | _, _ => if Fx.fle a b then b else a

/-- `f64::total_cmp` (our NaNs are positive, so they sort above +∞). -/
def Fx.totalCmp : Fx → Fx → Ordering
  | .nan, .nan => .eq
  | .nan, _ => .gt
  | _, .nan => .lt
  | .ninf, .ninf => .eq
  | .ninf, _ => .lt
  | _, .ninf => .gt
  | .inf, .inf => .eq
  | .inf, _ => .gt
  | _, .inf => .lt
  | .fin a, .fin b => Fq.cmp a b

/-! ### Matrices (src/ray-tracer/src/matrix.rs) -/

/-- A square matrix as rows of fractions (`Matrix { data: Vec<Vec<f64>> }`;
out-of-range indexing is modelled as 0 and never exercised). -/
def Mat : Type := List (List Fq)

instance : DecidableEq Mat := by
  unfold Mat; infer_instance

/-- Indexing, `self[(i, j)]`. -/
def mget (m : Mat) (i j : ℕ) : Fq := ((m.getD i []).getD j Fq.zero)

/-- Sum of a list of fractions (the `det += ...` / `sum += ...` loops,
starting from 0.0). -/
def sumFq (l : List Fq) : Fq := l.foldl Fq.add Fq.zero

/-- `Matrix::identity(size)`. -/
def matIdentity (n : ℕ) : Mat :=
  (List.range n).map fun r => (List.range n).map fun c =>
    if r = c then Fq.one else Fq.zero

/-- `Matrix::transpose` (`m[(col,row)] = self[(row,col)]`). -/
def matTranspose (m : Mat) : Mat :=
  (List.range m.length).map fun r => (List.range m.length).map fun c => mget m c r

/-- `Matrix::submatrix(row, col)`: drop one row and one column. -/
def submatrix (m : Mat) (row col : ℕ) : Mat :=
  ((m.enum.filter fun p => p.1 ≠ row).map fun p =>
    ((p.2.enum.filter fun q => q.1 ≠ col).map fun q => q.2))

/-- `Matrix::determinant`, with the dynamic `self.size()` made an explicit
index `n` (the source recurses through `cofactor`/`minor` on the
one-smaller submatrix; a 2×2 base case, and the empty cofactor sum gives
0 for sizes below 2 exactly as the source's loop does). -/
def detSized : ℕ → Mat → Fq
  | n, m =>
    if n = 2 then
      Fq.sub (Fq.mul (mget m 0 0) (mget m 1 1)) (Fq.mul (mget m 0 1) (mget m 1 0))
    else
      match n with
      | 0 => Fq.zero
      | n' + 1 =>
        sumFq ((List.range (n' + 1)).map fun col =>
          Fq.mul (mget m 0 col)
            (if (0 + col) % 2 = 0 then detSized n' (submatrix m 0 col)
             else Fq.neg (detSized n' (submatrix m 0 col))))

/-- `Matrix::determinant`. -/
def determinant (m : Mat) : Fq := detSized m.length m

/-- `Matrix::minor`. -/
def matMinor (m : Mat) (row col : ℕ) : Fq := determinant (submatrix m row col)

/-- `Matrix::cofactor`. -/
def matCofactor (m : Mat) (row col : ℕ) : Fq :=
  if (row + col) % 2 = 0 then matMinor m row col else Fq.neg (matMinor m row col)

/-- Row chunks of a flat list (`values.chunks(size)`), driven by an
explicit fuel that the caller sets to the list length. -/
def chunksF : ℕ → ℕ → List Fq → List (List Fq)
  | 0, _, _ => []
  | _ + 1, _, [] => []
  | fuel + 1, size, v => v.take size :: chunksF fuel size (v.drop size)

/-- `Matrix::from(values, size)`. -/
def matFrom (vals : List Fq) (size : ℕ) : Mat := chunksF vals.length size vals

/-- `Matrix::inverse`: `None` when the determinant is exactly 0, else the
transposed cofactor matrix divided by the determinant. -/
def matInverse (m : Mat) : Option Mat :=
  let det := determinant m
  if Fq.beq det Fq.zero then none
  else
    some (matTranspose (matFrom
      (((List.range m.length).map fun row =>
        (List.range m.length).map fun col => Fq.divnz (matCofactor m row col) det).flatten)
      m.length))

/-- Matrix product (`Mul for &Matrix`; sizes taken from the left factor). -/
def matMul (a b : Mat) : Mat :=
  (List.range a.length).map fun row => (List.range a.length).map fun col =>
    sumFq ((List.range a.length).map fun i => Fq.mul (mget a row i) (mget b i col))

/-- A point or vector with finite coordinates; `w` is passed separately
where it matters (1 for points, 0 for vectors). -/
structure PtQ where
  x : Fq
  y : Fq
  z : Fq
deriving DecidableEq, Repr

/-- Matrix times tuple (`Mul<&T: Tuple> for &Matrix`) with weight `w`. -/
def mulTuple (m : Mat) (p : PtQ) (w : Fq) : PtQ :=
  ⟨Fq.add (Fq.add (Fq.add (Fq.mul (mget m 0 0) p.x) (Fq.mul (mget m 0 1) p.y))
      (Fq.mul (mget m 0 2) p.z)) (Fq.mul (mget m 0 3) w),
   Fq.add (Fq.add (Fq.add (Fq.mul (mget m 1 0) p.x) (Fq.mul (mget m 1 1) p.y))
      (Fq.mul (mget m 1 2) p.z)) (Fq.mul (mget m 1 3) w),
   Fq.add (Fq.add (Fq.add (Fq.mul (mget m 2 0) p.x) (Fq.mul (mget m 2 1) p.y))
      (Fq.mul (mget m 2 2) p.z)) (Fq.mul (mget m 2 3) w)⟩

/-- Matrix times point (w = 1). -/
def mulPoint (m : Mat) (p : PtQ) : PtQ := mulTuple m p Fq.one

/-- Matrix times vector (w = 0). -/
def mulVec (m : Mat) (p : PtQ) : PtQ := mulTuple m p Fq.zero

/-! ### Transformations (src/ray-tracer/src/transformations.rs) -/

/-- `Transformation`: the matrix with its cached inverse and
inverse-transpose. -/
structure Transformation where
  matrix : Mat
  inverse : Option Mat
  inverseTransposed : Option Mat
deriving DecidableEq

/-- `Transformation::prepare_transform`. -/
def prepareTransform (m : Mat) : Option Mat × Option Mat :=
  let ti := matInverse m
  (ti, ti.map matTranspose)

/-- Build a `Transformation` from a matrix (`From<Matrix>`). -/
def Transformation.ofMat (m : Mat) : Transformation :=
  let p := prepareTransform m
  ⟨m, p.1, p.2⟩

/-- `Transformation::new_transform()`: the identity. -/
def Transformation.newT : Transformation := Transformation.ofMat (matIdentity 4)

/-- `Transformation::apply_transform`: premultiply by `t` and refresh the
caches. -/
def Transformation.applyT (self t : Transformation) : Transformation :=
  Transformation.ofMat (matMul t.matrix self.matrix)

/-- The elementary translation matrix. -/
def translationMat (x y z : Fq) : Mat :=
  [[Fq.one, Fq.zero, Fq.zero, x],
   [Fq.zero, Fq.one, Fq.zero, y],
   [Fq.zero, Fq.zero, Fq.one, z],
   [Fq.zero, Fq.zero, Fq.zero, Fq.one]]

/-- `Transformation::translation`: premultiply by the elementary matrix. -/
def Transformation.translation (self : Transformation) (x y z : Fq) : Transformation :=
  Transformation.ofMat (matMul (translationMat x y z) self.matrix)

/-- The elementary scaling matrix. -/
def scalingMat (x y z : Fq) : Mat :=
  [[x, Fq.zero, Fq.zero, Fq.zero],
   [Fq.zero, y, Fq.zero, Fq.zero],
   [Fq.zero, Fq.zero, z, Fq.zero],
   [Fq.zero, Fq.zero, Fq.zero, Fq.one]]

/-- `Transformation::scaling`: premultiply by the elementary matrix. -/
def Transformation.scaling (self : Transformation) (x y z : Fq) : Transformation :=
  Transformation.ofMat (matMul (scalingMat x y z) self.matrix)

/-! ### Bounds (src/ray-tracer/src/bounds.rs) -/

/-- A corner point of a bounding box (coordinates may be infinite: the
empty box is `(+∞,+∞,+∞)..(−∞,−∞,−∞)`). -/
structure PtF where
  x : Fx
  y : Fx
  z : Fx
deriving DecidableEq, Repr

/-- Lift a finite point to a corner point. -/
def PtQ.toF (p : PtQ) : PtF := ⟨.fin p.x, .fin p.y, .fin p.z⟩

/-- An axis-aligned bounding box, `Bounds { min, max }`. -/
structure BoundsT where
  bmin : PtF
  bmax : PtF
deriving DecidableEq, Repr

/-- `Bounds::default()`: the empty box. -/
def BoundsT.defaultB : BoundsT :=
  ⟨⟨.inf, .inf, .inf⟩, ⟨.ninf, .ninf, .ninf⟩⟩

/-- `Add<&Point> for Bounds`: fold one point into the box with
componentwise `f64::min`/`f64::max`. -/
def BoundsT.addPoint (b : BoundsT) (p : PtF) : BoundsT :=
  ⟨⟨Fx.fmin b.bmin.x p.x, Fx.fmin b.bmin.y p.y, Fx.fmin b.bmin.z p.z⟩,
   ⟨Fx.fmax b.bmax.x p.x, Fx.fmax b.bmax.y p.y, Fx.fmax b.bmax.z p.z⟩⟩

/-- `Add for Bounds`: fold in the two corners of the other box. -/
def BoundsT.addB (b rhs : BoundsT) : BoundsT :=
  (b.addPoint rhs.bmin).addPoint rhs.bmax

/-- Matrix times corner point (w = 1), with IEEE-754 arithmetic. -/
def mulPointF (m : Mat) (p : PtF) : PtF :=
  let row := fun (i : ℕ) =>
    Fx.add (Fx.add (Fx.add (Fx.mul (.fin (mget m i 0)) p.x)
        (Fx.mul (.fin (mget m i 1)) p.y))
      (Fx.mul (.fin (mget m i 2)) p.z)) (Fx.mul (.fin (mget m i 3)) (.fin Fq.one))
  ⟨row 0, row 1, row 2⟩

/-- `Bounds::transform`: map the 8 corners through the transformation's
matrix and fold them into an empty box. -/
def BoundsT.transformB (b : BoundsT) (t : Transformation) : BoundsT :=
  let p1 := mulPointF t.matrix b.bmin
  let p2 := mulPointF t.matrix ⟨b.bmin.x, b.bmin.y, b.bmax.z⟩
  let p3 := mulPointF t.matrix ⟨b.bmin.x, b.bmax.y, b.bmin.z⟩
  let p4 := mulPointF t.matrix ⟨b.bmin.x, b.bmax.y, b.bmax.z⟩
  let p5 := mulPointF t.matrix ⟨b.bmax.x, b.bmin.y, b.bmin.z⟩
  let p6 := mulPointF t.matrix ⟨b.bmax.x, b.bmin.y, b.bmax.z⟩
  let p7 := mulPointF t.matrix ⟨b.bmax.x, b.bmax.y, b.bmin.z⟩
  let p8 := mulPointF t.matrix b.bmax
  ((((((((BoundsT.defaultB.addPoint p1).addPoint p2).addPoint p3).addPoint
    p4).addPoint p5).addPoint p6).addPoint p7).addPoint p8)

/-- `Bounds::contains_point` (inclusive comparisons). -/
def BoundsT.containsPoint (b : BoundsT) (p : PtF) : Bool :=
  Fx.fle b.bmin.x p.x && Fx.fle b.bmin.y p.y && Fx.fle b.bmin.z p.z &&
    Fx.fle p.x b.bmax.x && Fx.fle p.y b.bmax.y && Fx.fle p.z b.bmax.z

/-- `Bounds::contains`. -/
def BoundsT.containsB (b other : BoundsT) : Bool :=
  b.containsPoint other.bmin && b.containsPoint other.bmax

/-- `Bounds::split`: cut at the midpoint of the largest axis. -/
def BoundsT.splitB (b : BoundsT) : BoundsT × BoundsT :=
  let xSize := Fx.sub b.bmax.x b.bmin.x
  let ySize := Fx.sub b.bmax.y b.bmin.y
  let zSize := Fx.sub b.bmax.z b.bmin.z
  let maxSize := Fx.fmax xSize (Fx.fmax ySize zSize)
  let two : Fx := .fin (Fq.ofInt 2)
  let p :=
    if Fx.feq maxSize xSize then
      let x1 := Fx.add b.bmin.x (Fx.div xSize two)
      (⟨x1, b.bmin.y, b.bmin.z⟩, ⟨x1, b.bmax.y, b.bmax.z⟩)
    else if Fx.feq maxSize ySize then
      let y1 := Fx.add b.bmin.y (Fx.div ySize two)
      (⟨b.bmin.x, y1, b.bmin.z⟩, ⟨b.bmax.x, y1, b.bmax.z⟩)
    else
      let z1 := Fx.add b.bmin.z (Fx.div zSize two)
      (⟨b.bmin.x, b.bmin.y, z1⟩, ⟨b.bmax.x, b.bmax.y, z1⟩)
  (⟨b.bmin, p.2⟩, ⟨p.1, b.bmax⟩)

/-- A ray: origin and direction with finite components. -/
structure RayG where
  origin : PtQ
  direction : PtQ
deriving DecidableEq, Repr

/-- `Ray::transform`: matrix times origin (point) and direction (vector). -/
def RayG.transformR (r : RayG) (m : Mat) : RayG :=
  ⟨mulPoint m r.origin, mulVec m r.direction⟩

/-- `Bounds::check_axis`: the slab interval on one axis, swapped so the
smaller bound comes first (the NaN-aware `<` gives the swapped order when
a 0/0 division produced NaN, exactly as in the source). -/
def checkAxisB (origin direction : Fq) (mn mx : Fx) : Fx × Fx :=
  let tminNum := Fx.sub mn (.fin origin)
  let tmaxNum := Fx.sub mx (.fin origin)
  let tmin := Fx.div tminNum (.fin direction)
  let tmax := Fx.div tmaxNum (.fin direction)
  if Fx.flt tmin tmax then (tmin, tmax) else (tmax, tmin)

/-- The `(tmin, tmax)` pair `Bounds::intersects` computes: the largest
axis minimum (by `f64::max`) and the smallest axis maximum (by
`f64::min`). -/
def boundsSlab (b : BoundsT) (r : RayG) : Fx × Fx :=
  let xt := checkAxisB r.origin.x r.direction.x b.bmin.x b.bmax.x
  let yt := checkAxisB r.origin.y r.direction.y b.bmin.y b.bmax.y
  let zt := checkAxisB r.origin.z r.direction.z b.bmin.z b.bmax.z
  (Fx.fmax xt.1 (Fx.fmax yt.1 zt.1), Fx.fmin xt.2 (Fx.fmin yt.2 zt.2))

/-- `Bounds::intersects`: miss when `tmax < 0`, else hit iff
`tmin <= tmax`. -/
def BoundsT.intersectsB (b : BoundsT) (r : RayG) : Bool :=
  let xt := checkAxisB r.origin.x r.direction.x b.bmin.x b.bmax.x
  let yt := checkAxisB r.origin.y r.direction.y b.bmin.y b.bmax.y
  let zt := checkAxisB r.origin.z r.direction.z b.bmin.z b.bmax.z
  let tmax := Fx.fmin xt.2 (Fx.fmin yt.2 zt.2)
  if Fx.flt tmax (.fin Fq.zero) then false
  else
    let tmin := Fx.fmax xt.1 (Fx.fmax yt.1 zt.1)
    Fx.fle tmin tmax

/-! ### Shapes and objects (src/ray-tracer/src/shapes/mod.rs, sphere.rs,
cube.rs, group.rs)

The `Shape` sum type is embedded with the variants the claims exercise
(`Sphere`, `Cube`, `Group`); the material is opaque to all of this code
and is modelled by a tag. -/

/-- Opaque material handle (the geometry code never reads its fields). -/
structure MaterialG where
  tag : ℕ
deriving DecidableEq, Repr

/-- `Material::new()` stand-in. -/
def MaterialG.defaultM : MaterialG := ⟨0⟩

mutual

/-- The `Shape` sum type (sphere, cube, group variants). -/
inductive ShapeT where
  | sphere : ShapeT
  | cube : ShapeT
  | group : List ObjectT → ShapeT

/-- `Object`: transform, material, shape, cached world bounds. -/
inductive ObjectT where
  | mk : Transformation → MaterialG → ShapeT → BoundsT → ObjectT

end

/-- The object's transform. -/
def ObjectT.transformOf : ObjectT → Transformation
  | .mk tr _ _ _ => tr

/-- The object's material. -/
def ObjectT.materialOf : ObjectT → MaterialG
  | .mk _ m _ _ => m

/-- The object's shape. -/
def ObjectT.shapeOf : ObjectT → ShapeT
  | .mk _ _ s _ => s

/-- The object's cached bounds (`Object::bounds`). -/
def ObjectT.boundsOf : ObjectT → BoundsT
  | .mk _ _ _ b => b

/-- The children of a group-shaped object (else empty). -/
def ObjectT.childrenOf : ObjectT → List ObjectT
  | .mk _ _ (.group cs) _ => cs
  | _ => []

/-- Whether the shape is a group (`matches!(self.shape, Shape::Group(_))`). -/
def ShapeT.isGroup : ShapeT → Bool
  | .group _ => true
  | _ => false

/-- `Sphere::bounds` and `Cube::bounds`: the unit box. -/
def unitBounds : BoundsT :=
  ⟨⟨.fin (Fq.ofInt (-1)), .fin (Fq.ofInt (-1)), .fin (Fq.ofInt (-1))⟩,
   ⟨.fin Fq.one, .fin Fq.one, .fin Fq.one⟩⟩

/-- `Group::bounds`: fold the children's cached object bounds into an
empty box. -/
def groupBounds (cs : List ObjectT) : BoundsT :=
  cs.foldl (fun b child => b.addB child.boundsOf) BoundsT.defaultB

/-- `Shape::bounds` for the embedded variants. -/
def ShapeT.boundsS : ShapeT → BoundsT
  | .sphere => unitBounds
  | .cube => unitBounds
  | .group cs => groupBounds cs

/-- An intersection produced by the geometry code: `t` plus the hit
object. -/
structure IntxG where
  t : Fx
  object : ObjectT

/-- Insertion into a list sorted by `t.total_cmp`. -/
def insertG (i : IntxG) : List IntxG → List IntxG
  | [] => [i]
  | j :: rest =>
    if Fx.totalCmp i.t j.t = .gt then j :: insertG i rest else i :: j :: rest

/-- `sort_unstable_by(|a, b| a.t.total_cmp(&b.t))`. -/
def sortG (xs : List IntxG) : List IntxG := xs.foldr insertG []

/-- `Cube::check_axis(origin, direction)`: the unit slab
`(-1 - o)/d .. (1 - o)/d`, swapped so the smaller comes first. -/
def cubeCheckAxis (origin direction : Fq) : Fx × Fx :=
  let tminNum := Fq.sub (Fq.ofInt (-1)) origin
  let tmaxNum := Fq.sub Fq.one origin
  let tmin := Fx.div (.fin tminNum) (.fin direction)
  let tmax := Fx.div (.fin tmaxNum) (.fin direction)
  if Fx.flt tmin tmax then (tmin, tmax) else (tmax, tmin)

/-- Rust's `[a, b, c].into_iter().max_by(total_cmp)` (keeps the later
element on ties). -/
def maxByTotal3 (a b c : Fx) : Fx :=
  let m1 := if Fx.totalCmp b a = .lt then a else b
  if Fx.totalCmp c m1 = .lt then m1 else c

/-- Rust's `[a, b, c].into_iter().min_by(total_cmp)` (keeps the earlier
element on ties). -/
def minByTotal3 (a b c : Fx) : Fx :=
  let m1 := if Fx.totalCmp b a = .lt then b else a
  if Fx.totalCmp c m1 = .lt then c else m1

/-- The `(tmin, tmax)` pair `Cube::intersects` computes. -/
def cubeSlab (r : RayG) : Fx × Fx :=
  let xt := cubeCheckAxis r.origin.x r.direction.x
  let yt := cubeCheckAxis r.origin.y r.direction.y
  let zt := cubeCheckAxis r.origin.z r.direction.z
  (maxByTotal3 xt.1 yt.1 zt.1, minByTotal3 xt.2 yt.2 zt.2)

/-- `Cube::intersects`: two intersections `tmin`, `tmax` whenever
`tmin <= tmax`, with no filtering on the sign of `t`. -/
def cubeIntersects (object : ObjectT) (r : RayG) : List IntxG :=
  let t := cubeSlab r
  if Fx.fle t.1 t.2 then [⟨t.1, object⟩, ⟨t.2, object⟩] else []

/-- Dot product of finite tuples. -/
def dotQ (a b : PtQ) : Fq :=
  Fq.add (Fq.add (Fq.mul a.x b.x) (Fq.mul a.y b.y)) (Fq.mul a.z b.z)

/-- `Sphere::intersects` with the square root abstracted (`fsqrt` models
`f64::sqrt` on finite non-negative arguments): quadratic in `t`, no roots
for a negative discriminant, else the two roots in order. -/
def sphereIntersects (fsqrt : Fq → Fq) (object : ObjectT) (r : RayG) : List IntxG :=
  let sphereToRay := r.origin
  let a := dotQ r.direction r.direction
  let b := Fq.mul (Fq.ofInt 2) (dotQ r.direction sphereToRay)
  let c := Fq.sub (dotQ sphereToRay sphereToRay) Fq.one
  let discriminant := Fq.sub (Fq.mul b b) (Fq.mul (Fq.mul (Fq.ofInt 4) a) c)
  if Fq.blt discriminant Fq.zero then []
  else
    let t1 := Fx.div (.fin (Fq.sub (Fq.neg b) (fsqrt discriminant)))
      (.fin (Fq.mul (Fq.ofInt 2) a))
    let t2 := Fx.div (.fin (Fq.add (Fq.neg b) (fsqrt discriminant)))
      (.fin (Fq.mul (Fq.ofInt 2) a))
    [⟨t1, object⟩, ⟨t2, object⟩]

mutual

/-- `Object::intersects`: a non-group shape sees the ray transformed by
the object's inverse transform (`unwrap`ed in the source: `none` models
the panic on a non-invertible transform); a group-shaped object passes
the ray through unchanged. -/
def intersectsO (fsqrt : Fq → Fq) (o : ObjectT) (r : RayG) : Option (List IntxG) :=
  match o with
  | .mk tr _ s _ =>
    match s with
    | .group cs =>
      if (groupBounds cs).intersectsB r then (intersectsL fsqrt cs r).map sortG
      else some []
    | .sphere =>
      match tr.inverse with
      | none => none
      | some inv => some (sphereIntersects fsqrt o (r.transformR inv))
    | .cube =>
      match tr.inverse with
      | none => none
      | some inv => some (cubeIntersects o (r.transformR inv))

/-- `Group::intersects` body: gather each child's intersections (the
group's bounds test already passed). -/
def intersectsL (fsqrt : Fq → Fq) : List ObjectT → RayG → Option (List IntxG)
  | [], _ => some []
  | c :: rest, r =>
    (intersectsO fsqrt c r).bind fun xs =>
      (intersectsL fsqrt rest r).map fun ys => xs ++ ys

end

/-- `Object::world_to_object`:
`self.transform.inverse().unwrap() * &point` (`none` models the panic). -/
def worldToObject (o : ObjectT) (p : PtQ) : Option PtQ :=
  (o.transformOf).inverse.map fun inv => mulPoint inv p

/-! ### Builder and subdivision (src/ray-tracer/src/shapes/mod.rs lines
332-355 and 574-587, src/ray-tracer/src/shapes/group.rs lines 73-114) -/

mutual

/-- `Object::apply_transform`: a group pushes the transform into every
child and resets its own transform to the identity; any other shape
premultiplies its own transform; in both cases the cached bounds are
re-transformed. -/
def applyTransformO (t : Transformation) : ObjectT → ObjectT
  | .mk _ mat (.group cs) b =>
    .mk Transformation.newT mat (.group (applyTransformL t cs)) (b.transformB t)
  | .mk tr mat s b => .mk (tr.applyT t) mat s (b.transformB t)

/-- `apply_transform` over a group's children. -/
def applyTransformL (t : Transformation) : List ObjectT → List ObjectT
  | [] => []
  | o :: os => applyTransformO t o :: applyTransformL t os

end

/-- `ObjectBuilder::build`: a group applies the builder's transform to
each child and resets the transform to the identity; the cached bounds
are the shape's bounds transformed by the (possibly reset) transform. -/
def buildObj (transform : Transformation) (mat : MaterialG) (shape : ShapeT) : ObjectT :=
  match shape with
  | .group cs =>
    let cs' := applyTransformL transform cs
    .mk Transformation.newT mat (.group cs')
      ((ShapeT.boundsS (.group cs')).transformB Transformation.newT)
  | s => .mk transform mat s ((ShapeT.boundsS s).transformB transform)

mutual

/-- Every group node in the object tree carries the identity transform
(the baked-in composition strategy). -/
def groupsIdO : ObjectT → Bool
  | .mk tr _ (.group cs) _ => (tr == Transformation.newT) && groupsIdL cs
  | .mk _ _ _ _ => true

/-- The invariant over a list of children. -/
def groupsIdL : List ObjectT → Bool
  | [] => true
  | o :: os => groupsIdO o && groupsIdL os

end

/-- The partition-plus-subgroup step of `Group::divide`: split the
group's bounds at the midpoint of the largest axis, keep the children
contained in neither half, and wrap the children fully contained in the
left (resp. right) half-box in a new subgroup appended after them
(`partition_children` + the two `make_subgroup` calls). -/
def partitionStep (cs : List ObjectT) : List ObjectT :=
  let boxes := (groupBounds cs).splitB
  let left := cs.filter fun c => boxes.1.containsB c.boundsOf
  let right := cs.filter fun c =>
    !boxes.1.containsB c.boundsOf && boxes.2.containsB c.boundsOf
  let keep := cs.filter fun c =>
    !boxes.1.containsB c.boundsOf && !boxes.2.containsB c.boundsOf
  (keep ++
    (if left.isEmpty then []
     else [buildObj Transformation.newT MaterialG.defaultM (.group left)])) ++
    (if right.isEmpty then []
     else [buildObj Transformation.newT MaterialG.defaultM (.group right)])

/-- `Group::divide(threshold)` on a group's children list, with explicit
fuel bounding the recursion depth (the source recursion is not obviously
terminating; `none` means the fuel ran out).  When at least `threshold`
children are present the partition step runs first; afterwards `divide`
recurses into every child, including the new subgroups. -/
def divideGroup : ℕ → ℕ → List ObjectT → Option (List ObjectT)
  | 0, _, _ => none
  | fuel + 1, threshold, cs =>
    let cs' := if threshold ≤ cs.length then partitionStep cs else cs
    cs'.mapM fun o =>
      match o with
      | .mk tr mat (.group gcs) b =>
        (divideGroup fuel threshold gcs).map fun gcs' => .mk tr mat (.group gcs') b
      | o => some o

/-- `Object::divide`: dispatch to the group's children; all other shapes
are left untouched (`Shape::divide` is a no-op for them). -/
def divideObj (fuel threshold : ℕ) (o : ObjectT) : Option ObjectT :=
  match o with
  | .mk tr mat (.group cs) b =>
    (divideGroup fuel threshold cs).map fun cs' => .mk tr mat (.group cs') b
  | o => some o

/-! ### Value equality of objects

Rust compares `Object`s with derived `PartialEq`, which on this code
bottoms out in f64 comparisons (with the epsilon tolerance of the matrix
and point `PartialEq` impls).  The `beq...` family below is exact value
equality of the fraction representations — it implies the Rust equality
on the example values, which are exact. -/

/-- Value equality of extended doubles. -/
def beqFx : Fx → Fx → Bool
  | .nan, .nan => true
  | .ninf, .ninf => true
  | .inf, .inf => true
  | .fin a, .fin b => Fq.beq a b
  | _, _ => false

/-- Value equality of corner points. -/
def beqPtF (a b : PtF) : Bool :=
  beqFx a.x b.x && beqFx a.y b.y && beqFx a.z b.z

/-- Value equality of boxes. -/
def beqBounds (a b : BoundsT) : Bool :=
  beqPtF a.bmin b.bmin && beqPtF a.bmax b.bmax

/-- Value equality of matrices (entrywise on a 4×4). -/
def beqMat (a b : Mat) : Bool :=
  a.length == b.length &&
    ((List.range 4).all fun r => (List.range 4).all fun c =>
      Fq.beq (mget a r c) (mget b r c))

/-- Value equality of optional matrices. -/
def beqOptMat : Option Mat → Option Mat → Bool
  | none, none => true
  | some a, some b => beqMat a b
  | _, _ => false

/-- Value equality of transformations (matrix and caches). -/
def beqTransformation (a b : Transformation) : Bool :=
  beqMat a.matrix b.matrix && beqOptMat a.inverse b.inverse &&
    beqOptMat a.inverseTransposed b.inverseTransposed

mutual

/-- Value equality of objects (transform, material, shape, bounds — the
fields Rust's derived `PartialEq` compares). -/
def beqO : ObjectT → ObjectT → Bool
  | .mk tr1 m1 s1 b1, .mk tr2 m2 s2 b2 =>
    beqTransformation tr1 tr2 && m1 == m2 && beqS s1 s2 && beqBounds b1 b2

/-- Value equality of shapes. -/
def beqS : ShapeT → ShapeT → Bool
  | .sphere, .sphere => true
  | .cube, .cube => true
  | .group cs, .group ds => beqL cs ds
  | _, _ => false

/-- Value equality of children lists. -/
def beqL : List ObjectT → List ObjectT → Bool
  | [], [] => true
  | a :: as_, b :: bs => beqO a b && beqL as_ bs
  | _, _ => false

end

/-! ### Claim C5: non-invertible transforms panic -/

/-- A sphere whose transform is `scaling(0, 0, 0)` — a valid but
degenerate authoring state with determinant exactly 0. -/
def degenerateSphere : ObjectT :=
  buildObj (Transformation.newT.scaling Fq.zero Fq.zero Fq.zero)
    MaterialG.defaultM .sphere

/-- C5 (the code violates the claim): for an object with a non-invertible
transform the cached inverse is `None`, and both `world_to_object` and
`intersects` immediately `unwrap` it — modelled here as `none`, i.e. a
panic that aborts the render — instead of returning a zero vector or
treating the shape as unhittable. -/
theorem c5_noninvertible_transform_panics :
    (degenerateSphere.transformOf).inverse = none ∧
      worldToObject degenerateSphere ⟨Fq.one, Fq.one, Fq.one⟩ = none ∧
      (intersectsO (fun q => q) degenerateSphere
        ⟨⟨Fq.zero, Fq.zero, Fq.ofInt (-5)⟩, ⟨Fq.zero, Fq.zero, Fq.one⟩⟩).isNone = true := by
  refine ⟨by decide, by decide, by decide⟩

/-! ### Claim C9: baked-in transforms -/

/-- The side condition of `build` for claim C9: the children a group is
built from already satisfy the invariant (they are themselves built
objects). -/
def shapeChildrenOK : ShapeT → Bool
  | .group cs => groupsIdL cs
  | _ => true

mutual

/-- Size measure on objects (for induction). -/
def sizeO : ObjectT → ℕ
  | .mk _ _ s _ => sizeS s + 1

/-- Size measure on shapes. -/
def sizeS : ShapeT → ℕ
  | .group cs => sizeL cs + 1
  | _ => 0

/-- Size measure on children lists. -/
def sizeL : List ObjectT → ℕ
  | [] => 0
  | o :: os => sizeO o + sizeL os + 1

end

lemma sizeO_pos (o : ObjectT) : 1 ≤ sizeO o := by
  rcases o with ⟨tr, mat, s, b⟩
  rw [sizeO]
  omega

lemma applyPreserveL (t : Transformation) :
    ∀ n (cs : List ObjectT), sizeL cs ≤ n → groupsIdL cs = true →
      groupsIdL (applyTransformL t cs) = true := by
  intro n
  induction n with
  | zero =>
    intro cs hsz h
    cases cs with
    | nil => simpa [applyTransformL] using h
    | cons o os => simp [sizeL] at hsz
  | succ n ih =>
    intro cs hsz h
    cases cs with
    | nil => simpa [applyTransformL] using h
    | cons o os =>
      rw [groupsIdL] at h
      obtain ⟨ho, hos⟩ := Bool.and_eq_true_iff.mp h
      rw [applyTransformL, groupsIdL]
      have hos' : groupsIdL (applyTransformL t os) = true := by
        apply ih os ?_ hos
        have := sizeO_pos o
        simp [sizeL] at hsz
        omega
      rw [hos']
      rcases o with ⟨tr, mat, sh, b⟩
      cases sh with
      | group gcs =>
        rw [groupsIdO] at ho
        obtain ⟨-, hgcs⟩ := Bool.and_eq_true_iff.mp ho
        rw [applyTransformO, groupsIdO]
        have hrec : groupsIdL (applyTransformL t gcs) = true := by
          apply ih gcs ?_ hgcs
          simp [sizeL, sizeO, sizeS] at hsz
          omega
        simp [hrec]
      | sphere => simp [applyTransformO, groupsIdO]
      | cube => simp [applyTransformO, groupsIdO]

/-- C9: `build` establishes the baked-in invariant — if the children a
shape carries already satisfy it, the built object has every group node
at the identity transform; `apply_transform` preserves the invariant; a
group-shaped object's `intersects` passes the ray to its children
unchanged (guarded only by the group's bounds test); and a non-group
object's `intersects` transforms the incoming ray by its own inverse
transform exactly once before dispatching to the shape (panicking, i.e.
`none`, when the inverse does not exist). -/
theorem c9_baked_in_transforms :
    (∀ (t : Transformation) (mat : MaterialG) (s : ShapeT),
      shapeChildrenOK s = true → groupsIdO (buildObj t mat s) = true) ∧
      (∀ (t : Transformation) (o : ObjectT),
        groupsIdO o = true → groupsIdO (applyTransformO t o) = true) ∧
      (∀ (fsqrt : Fq → Fq) (tr : Transformation) (mat : MaterialG)
          (cs : List ObjectT) (b : BoundsT) (r : RayG),
        intersectsO fsqrt (.mk tr mat (.group cs) b) r =
          (if (groupBounds cs).intersectsB r then (intersectsL fsqrt cs r).map sortG
           else some [])) ∧
      (∀ (fsqrt : Fq → Fq) (tr : Transformation) (mat : MaterialG)
          (b : BoundsT) (r : RayG),
        intersectsO fsqrt (.mk tr mat .sphere b) r =
          tr.inverse.map (fun inv =>
            sphereIntersects fsqrt (.mk tr mat .sphere b) (r.transformR inv)) ∧
        intersectsO fsqrt (.mk tr mat .cube b) r =
          tr.inverse.map (fun inv =>
            cubeIntersects (.mk tr mat .cube b) (r.transformR inv))) := by
  refine ⟨?_, ?_, ?_, ?_⟩
  · intro t mat s hs
    cases s with
    | group cs =>
      rw [shapeChildrenOK] at hs
      have := applyPreserveL t (sizeL cs) cs (le_refl _) hs
      simp [buildObj, groupsIdO, this]
    | sphere => simp [buildObj, groupsIdO]
    | cube => simp [buildObj, groupsIdO]
  · intro t o ho
    rcases o with ⟨tr, mat, sh, b⟩
    cases sh with
    | group gcs =>
      rw [groupsIdO] at ho
      obtain ⟨-, hgcs⟩ := Bool.and_eq_true_iff.mp ho
      have := applyPreserveL t (sizeL gcs) gcs (le_refl _) hgcs
      simp [applyTransformO, groupsIdO, this]
    | sphere => simp [applyTransformO, groupsIdO]
    | cube => simp [applyTransformO, groupsIdO]
  · intro fsqrt tr mat cs b r
    rfl
  · intro fsqrt tr mat b r
    constructor
    · cases h : tr.inverse with
      | none => simp [intersectsO, h]
      | some inv => simp [intersectsO, h]
    · cases h : tr.inverse with
      | none => simp [intersectsO, h]
      | some inv => simp [intersectsO, h]

/-- A built, translated sphere child (for the C9 witness). -/
def witnessChild : ObjectT :=
  buildObj (Transformation.newT.translation (Fq.ofInt 5) Fq.zero Fq.zero)
    MaterialG.defaultM .sphere

/-- C9 witness: building a scaled group from a built sphere child yields
an object whose every group node carries the identity transform, and the
invariant survives a further `apply_transform`. -/
theorem c9_baked_in_transforms_witness :
    groupsIdO (buildObj (Transformation.newT.scaling (Fq.ofInt 2) (Fq.ofInt 2)
        (Fq.ofInt 2)) MaterialG.defaultM (.group [witnessChild])) = true ∧
      groupsIdO (applyTransformO (Transformation.newT.translation Fq.one Fq.zero
        Fq.zero) (buildObj (Transformation.newT.scaling (Fq.ofInt 2) (Fq.ofInt 2)
          (Fq.ofInt 2)) MaterialG.defaultM (.group [witnessChild]))) = true := by
  have h1 := (c9_baked_in_transforms).1
    (Transformation.newT.scaling (Fq.ofInt 2) (Fq.ofInt 2) (Fq.ofInt 2))
    MaterialG.defaultM (.group [witnessChild]) (by decide)
  exact ⟨h1, (c9_baked_in_transforms).2.1 _ _ h1⟩

/-! ### Claim C10: cube slab test versus bounds slab test -/

/-- C10: `Cube::intersects` never filters by the sign of `t` — whenever
its per-axis slab intervals overlap (`tmin <= tmax`) it returns exactly
two intersections, `tmin` then `tmax` (and none otherwise), including
when both are negative; whereas `Bounds::intersects` first reports a miss
whenever its own `tmax < 0`, and only otherwise tests `tmin <= tmax`. -/
theorem c10_cube_no_sign_filter (r : RayG) (obj : ObjectT) :
    (Fx.fle (cubeSlab r).1 (cubeSlab r).2 = true →
        cubeIntersects obj r = [⟨(cubeSlab r).1, obj⟩, ⟨(cubeSlab r).2, obj⟩]) ∧
      (Fx.fle (cubeSlab r).1 (cubeSlab r).2 = false → cubeIntersects obj r = []) ∧
      (∀ b : BoundsT, Fx.flt (boundsSlab b r).2 (.fin Fq.zero) = true →
        b.intersectsB r = false) ∧
      (∀ b : BoundsT, Fx.flt (boundsSlab b r).2 (.fin Fq.zero) = false →
        b.intersectsB r = Fx.fle (boundsSlab b r).1 (boundsSlab b r).2) := by
  refine ⟨?_, ?_, ?_, ?_⟩
  · intro h
    rw [cubeIntersects]
    simp only [h]
    simp
  · intro h
    rw [cubeIntersects]
    simp only [h]
    simp
  · intro b h
    rw [BoundsT.intersectsB]
    rw [boundsSlab] at h
    simp only at h
    simp [h]
  · intro b h
    rw [BoundsT.intersectsB]
    rw [boundsSlab] at h
    simp only at h
    simp [h]
    rfl

/-- A built unit cube with identity transform. -/
def unitCubeObj : ObjectT := buildObj Transformation.newT MaterialG.defaultM .cube

/-- The ray `origin (0,0,5)`, `direction (0,0,1)`: the cube lies entirely
behind the origin. -/
def behindRay : RayG :=
  ⟨⟨Fq.zero, Fq.zero, Fq.ofInt 5⟩, ⟨Fq.zero, Fq.zero, Fq.one⟩⟩

/-- C10 witness: for the ray starting at `(0,0,5)` pointing at `+z` the
cube slab interval is `[-6, -4]` — both negative — so `Cube::intersects`
still returns those two intersections while `Bounds::intersects` on the
unit box reports a miss (`tmax = -4 < 0`). -/
theorem c10_cube_no_sign_filter_witness :
    Fx.fle (cubeSlab behindRay).1 (cubeSlab behindRay).2 = true ∧
      (cubeSlab behindRay).1 = .fin ⟨-6, 1⟩ ∧
      (cubeSlab behindRay).2 = .fin ⟨-4, 1⟩ ∧
      cubeIntersects unitCubeObj behindRay =
        [⟨(cubeSlab behindRay).1, unitCubeObj⟩, ⟨(cubeSlab behindRay).2, unitCubeObj⟩] ∧
      Fx.flt (boundsSlab unitBounds behindRay).2 (.fin Fq.zero) = true ∧
      unitBounds.intersectsB behindRay = false := by
  have h := c10_cube_no_sign_filter behindRay unitCubeObj
  have h1 : Fx.fle (cubeSlab behindRay).1 (cubeSlab behindRay).2 = true := by decide
  have h2 : Fx.flt (boundsSlab unitBounds behindRay).2 (.fin Fq.zero) = true := by decide
  exact ⟨h1, by decide, by decide, h.1 h1, h2, h.2.2.1 unitBounds h2⟩

/-! ### Claim C8: group subdivision -/

/-- Sphere translated to `(-2, -2, 0)`. -/
def sphereLow : ObjectT :=
  buildObj (Transformation.newT.translation (Fq.ofInt (-2)) (Fq.ofInt (-2)) Fq.zero)
    MaterialG.defaultM .sphere

/-- Sphere translated to `(-2, 2, 0)`. -/
def sphereHigh : ObjectT :=
  buildObj (Transformation.newT.translation (Fq.ofInt (-2)) (Fq.ofInt 2) Fq.zero)
    MaterialG.defaultM .sphere

/-- Sphere scaled by 4 at the origin. -/
def sphereBig : ObjectT :=
  buildObj (Transformation.newT.scaling (Fq.ofInt 4) (Fq.ofInt 4) (Fq.ofInt 4))
    MaterialG.defaultM .sphere

/-- The three-sphere group of the spec's subdivision example. -/
def exampleGroup : ObjectT :=
  buildObj Transformation.newT MaterialG.defaultM
    (.group [sphereLow, sphereHigh, sphereBig])

/-- The example group divided with `threshold = 1` (fuel 5 is ample: the
recursion only descends one group level per step). -/
def dividedExample : Option ObjectT := divideObj 5 1 exampleGroup

/-- C8: with fewer than `threshold` children `divide` leaves the level
unpartitioned and only recurses into the children; with at least
`threshold` children it first runs the partition step (split the group's
bounds at the midpoint of the longest axis, move the children fully
contained in the left/right half-box into one new subgroup each, keep the
rest) and then recurses into every remaining child including the new
subgroups; and the three-sphere example divided with `threshold = 1`
yields a top-level group with exactly 2 children — the untouched origin
sphere and one subgroup holding two subgroups that wrap the two clustered
spheres (object comparisons are value equality of every f64 field, as in
the source's `PartialEq`). -/
theorem c8_divide (fuel threshold : ℕ) (cs : List ObjectT) :
    (cs.length < threshold →
        divideGroup (fuel + 1) threshold cs =
          cs.mapM fun o =>
            match o with
            | .mk tr mat (.group gcs) b =>
              (divideGroup fuel threshold gcs).map fun gcs' =>
                .mk tr mat (.group gcs') b
            | o => some o) ∧
      (threshold ≤ cs.length →
        divideGroup (fuel + 1) threshold cs =
          (partitionStep cs).mapM fun o =>
            match o with
            | .mk tr mat (.group gcs) b =>
              (divideGroup fuel threshold gcs).map fun gcs' =>
                .mk tr mat (.group gcs') b
            | o => some o) ∧
      (dividedExample.map fun t => (t.childrenOf).length) = some 2 ∧
      (dividedExample.map fun t => beqO ((t.childrenOf).getD 0 t) sphereBig) =
        some true ∧
      (dividedExample.map fun t =>
        let sub := (t.childrenOf).getD 1 t
        let subL := (sub.childrenOf).getD 0 t
        let subR := (sub.childrenOf).getD 1 t
        sub.shapeOf.isGroup && subL.shapeOf.isGroup && subR.shapeOf.isGroup &&
          (sub.childrenOf).length == 2 &&
          (subL.childrenOf).length == 1 && (subR.childrenOf).length == 1 &&
          beqO ((subL.childrenOf).getD 0 t) sphereLow &&
          beqO ((subR.childrenOf).getD 0 t) sphereHigh) = some true := by
  refine ⟨?_, ?_, by decide, by decide, by decide⟩
  · intro h
    rw [divideGroup]
    simp [Nat.not_le.mpr h]
  · intro h
    rw [divideGroup]
    simp [h]

/-- C8 witness: at `threshold = 1` an empty group is below the threshold
and `divide` is the bare recursion into (no) children; and the partition
branch fires on the example's three children. -/
theorem c8_divide_witness :
    divideGroup 1 1 ([] : List ObjectT) = some [] ∧
      divideGroup 5 1 exampleGroup.childrenOf =
        (partitionStep exampleGroup.childrenOf).mapM fun o =>
          match o with
          | .mk tr mat (.group gcs) b =>
            (divideGroup 4 1 gcs).map fun gcs' => .mk tr mat (.group gcs') b
          | o => some o := by
  constructor
  · have h := (c8_divide 0 1 ([] : List ObjectT)).1 (by decide)
    rw [h]
    rfl
  · exact (c8_divide 4 1 exampleGroup.childrenOf).2.1 (by decide)

end GeoNS

end RayTracerCheck
